import Mathlib

/-!
Shallow embedding of the texxd hex editor core (snapshot under `src/texthed`):
the `HexFile` byte store (`hex_file.py`), the navigation `Cursor`
(`cursors/cursor.py`), and the hex / ASCII display columns
(`columns/hex.py`, `columns/ascii.py`).

Conventions of the embedding:
* Python `bytes` values are `List Nat` (each element a byte value `0..255`).
* Python `int` is `Int` where negative values can occur (sizes passed to
  `read`, cursor positions), `Nat` where the source only ever holds a
  non-negative value (file offsets, lengths).
* Python floor division `//` and modulo `%` are `Int.fdiv` / `Int.fmod`.
* The insertion-ordered `dict` used for the write buffer is an association
  list in insertion order; assignment to an existing key replaces the value
  in place (keeping its position), assignment to a fresh key appends.
* Methods that mutate state are functions `state → args → result × state`
  (or just `state` when the Python method returns `None`).
-/

namespace Texxd

/-- A list of `n` zero bytes (`b"\x00" * n`). -/
def zeros (n : Nat) : List Nat := List.replicate n 0

/-! ## HexFile (`src/texthed/hex_file.py`) -/

/-- State of `HexFile`: the underlying file's bytes, the insertion-ordered
write buffer (`_write_buffer`), the current position (`_position`) and the
logical size (`_file_size`).  The underlying OS file handle's own seek
position is not modelled: every source method seeks the handle before use
or restores it, so it is never observable. -/
structure HexFile where
  backing : List Nat
  writeBuffer : List (Nat × List Nat)
  position : Nat
  fileSize : Nat
deriving Repr, DecidableEq

namespace HexFile

/-- `HexFile.__init__`: empty write buffer, position `0`, size read from the
underlying file. -/
def init (backing : List Nat) : HexFile :=
  { backing := backing, writeBuffer := [], position := 0, fileSize := backing.length }

/-- Python-dict assignment `d[k] = v` on an insertion-ordered association
list: replace in place if the key exists, else append. -/
def dictInsert (buf : List (Nat × List Nat)) (k : Nat) (v : List Nat) :
    List (Nat × List Nat) :=
  if buf.any (fun e => e.1 = k) then
    buf.map (fun e => if e.1 = k then (k, v) else e)
  else
    buf ++ [(k, v)]

/-- `HexFile.seek`: SET / CUR / END, result clamped to `≥ 0` only. -/
def seek (st : HexFile) (offset : Int) (whence : Nat) : HexFile :=
  let p : Int :=
    if whence = 0 then offset
    else if whence = 1 then (st.position : Int) + offset
    else if whence = 2 then (st.fileSize : Int) + offset
    else (st.position : Int)
  { st with position := (max 0 p).toNat }

/-- `HexFile.tell`. -/
def tell (st : HexFile) : Nat := st.position

/-- One step of the overlay loop in `HexFile.read`: apply a single write
buffer entry to the result buffer.  `result[rs:re] = buf_data[bs:be]` on a
`bytearray` is modelled by take/drop splicing. -/
def applyOverlay (readStart : Nat) (result : List Nat) (entry : Nat × List Nat) :
    List Nat :=
  let bufOffset := entry.1
  let bufData := entry.2
  let readEnd := readStart + result.length
  let bufEnd := bufOffset + bufData.length
  if bufEnd ≤ readStart ∨ readEnd ≤ bufOffset then
    result
  else
    let overlapStart := max readStart bufOffset
    let overlapEnd := min readEnd bufEnd
    let resultStart := overlapStart - readStart
    let resultEnd := overlapEnd - readStart
    let bufStart := overlapStart - bufOffset
    result.take resultStart
      ++ (bufData.drop bufStart).take (overlapEnd - overlapStart)
      ++ result.drop resultEnd

/-- `HexFile.read`: read `size` bytes from the current position (`-1` means
to the end of the logical size), zero-filling past the backing file's actual
length and then applying every write-buffer entry in insertion order. -/
def read (st : HexFile) (size : Int) : List Nat × HexFile :=
  let size : Int := if size = -1 then (st.fileSize : Int) - st.position else size
  if size ≤ 0 then ([], st)
  else
    let maxReadSize : Int := (st.fileSize : Int) - st.position
    let actualReadSize : Int := min size maxReadSize
    if actualReadSize ≤ 0 then ([], st)
    else
      let actual : Nat := actualReadSize.toNat
      let bytesToReadFromFile : Nat := min actual (st.backing.length - st.position)
      let originalData := (st.backing.drop st.position).take bytesToReadFromFile
      let result0 := originalData ++ zeros (actual - originalData.length)
      let result := st.writeBuffer.foldl (applyOverlay st.position) result0
      (result, { st with position := st.position + result.length })

/-- `HexFile.write`: record a buffer entry keyed by the current position,
advance the position and extend the logical size when writing past the end.
Empty input is a no-op. -/
def write (st : HexFile) (data : List Nat) : Nat × HexFile :=
  if data = [] then (0, st)
  else
    let buf := dictInsert st.writeBuffer st.position data
    let newPos := st.position + data.length
    (data.length,
      { st with
        writeBuffer := buf
        position := newPos
        fileSize := if newPos > st.fileSize then newPos else st.fileSize })

/-- `HexFile.has_unsaved_changes`. -/
def hasUnsavedChanges (st : HexFile) : Bool := st.writeBuffer.length > 0

/-- Insert a `(start, end)` pair into a list sorted in Python tuple order
(lexicographic). -/
def insertRange (x : Nat × Nat) : List (Nat × Nat) → List (Nat × Nat)
  | [] => [x]
  | y :: ys =>
    if x.1 < y.1 ∨ (x.1 = y.1 ∧ x.2 ≤ y.2) then x :: y :: ys
    else y :: insertRange x ys

/-- Python `sorted` on a list of pairs (insertion sort; stability is
irrelevant because write-buffer keys are distinct). -/
def sortRanges : List (Nat × Nat) → List (Nat × Nat)
  | [] => []
  | x :: xs => insertRange x (sortRanges xs)

/-- `HexFile.get_unsaved_ranges`: `(offset, offset + len)` for each write
buffer entry, sorted. -/
def getUnsavedRanges (st : HexFile) : List (Nat × Nat) :=
  sortRanges (st.writeBuffer.map (fun e => (e.1, e.1 + e.2.length)))

/-- Insert a write-buffer entry into a list sorted by offset.  Python's
`sorted` compares the tuples lexicographically, but the keys of a dict are
distinct, so the key comparison alone decides the order. -/
def insertEntry (x : Nat × List Nat) : List (Nat × List Nat) → List (Nat × List Nat)
  | [] => [x]
  | y :: ys => if x.1 ≤ y.1 then x :: y :: ys else y :: insertEntry x ys

/-- `sorted(self._write_buffer.items())` (insertion sort by offset). -/
def sortEntries : List (Nat × List Nat) → List (Nat × List Nat)
  | [] => []
  | x :: xs => insertEntry x (sortEntries xs)

/-- Effect of `file.seek(off); file.write(data)` on the bytes of a regular
file: overwrite in place, extending the file and zero-filling any gap when
writing past the current end (POSIX semantics of the raw handle used by
`HexFile.save`).  Writing empty bytes changes nothing. -/
def fileWrite (f : List Nat) (off : Nat) (data : List Nat) : List Nat :=
  if data = [] then f
  else if off ≤ f.length then f.take off ++ data ++ f.drop (off + data.length)
  else f ++ zeros (off - f.length) ++ data

/-- `HexFile.save`: apply every write-buffer entry to the underlying file in
ascending offset order, clear the buffer, refresh the logical size from the
file's new true length.  No-op when the buffer is empty. -/
def save (st : HexFile) : HexFile :=
  if st.writeBuffer = [] then st
  else
    let newBacking :=
      (sortEntries st.writeBuffer).foldl (fun f e => fileWrite f e.1 e.2) st.backing
    { st with backing := newBacking, writeBuffer := [], fileSize := newBacking.length }

/-- `HexFile.revert`: clear the buffer, reset the logical size to the backing
file's true length. -/
def revert (st : HexFile) : HexFile :=
  { st with writeBuffer := [], fileSize := st.backing.length }

/-- The caller pattern `f.seek(o); f.write(data)` used throughout the tests:
write `data` at offset `o`. -/
def writeAt (st : HexFile) (o : Nat) (data : List Nat) : HexFile :=
  ((st.seek (o : Int) 0).write data).2

/-- A sequence of positioned writes, each performed as `seek` followed by
`write`. -/
def applyWrites (st : HexFile) (ws : List (Nat × List Nat)) : HexFile :=
  ws.foldl (fun st w => st.writeAt w.1 w.2) st

end HexFile

/-! ## Styles and segments (rich `Style` / `Segment`, as used by the columns) -/

/-- The fragment of `rich.style.Style` the editor uses: an optional foreground
colour, an optional background colour and an optional bold flag.  `Style()` is
the value with every attribute unset. -/
structure Style where
  color : Option String
  bgcolor : Option String
  bold : Option Bool
deriving Repr, DecidableEq

/-- `rich` `Style()` (all attributes unset). -/
def Style.empty : Style := ⟨none, none, none⟩

/-- `rich` style combination `s + t`: attributes of the right operand win
where the right operand defines them. -/
def Style.add (s t : Style) : Style :=
  ⟨(t.color).orElse (fun _ => s.color),
   (t.bgcolor).orElse (fun _ => s.bgcolor),
   (t.bold).orElse (fun _ => s.bold)⟩

/-- A `rich` `Segment`: a text and an optional style (`Segment(text, style)`
where `style` may be `None`). -/
abbrev Segment := String × Option Style

/-- Total display-cell count of a segment list (sum of text lengths). -/
def cells (segs : List Segment) : Nat := (segs.map (fun s => s.1.length)).sum

/-! ## Cursor (`src/texthed/cursors/cursor.py`) -/

/-- A notification emitted by the cursor: either the position-changed callback
(`on_position_changed(position)`) or the scroll-request callback
(`on_scroll_request(cursor_line)`).  The embedding models a cursor with both
callback sinks attached and returns the list of calls made. -/
inductive Notif where
  | positionChanged (p : Int)
  | scrollRequest (line : Int)
deriving Repr, DecidableEq

/-- State of `Cursor`: position (a Python `int`, so `Int`), file size,
bytes per line, view height and the active flag. -/
structure Cursor where
  position : Int
  fileSize : Nat
  bytesPerLine : Nat
  viewHeight : Nat
  isActive : Bool
deriving Repr, DecidableEq

namespace Cursor

/-- `Cursor.x`: `position % bytes_per_line` (Python modulo = `Int.fmod`). -/
def x (c : Cursor) : Int := c.position.fmod (c.bytesPerLine : Int)

/-- `Cursor.y`: `position // bytes_per_line` (Python floor division). -/
def y (c : Cursor) : Int := c.position.fdiv (c.bytesPerLine : Int)

/-- `Cursor._set_position`: update the position and notify both callbacks,
but only when the value actually changes. -/
def set_position (c : Cursor) (newPosition : Int) : Cursor × List Notif :=
  if newPosition ≠ c.position then
    ({ c with position := newPosition },
      [Notif.positionChanged newPosition,
       Notif.scrollRequest (newPosition.fdiv (c.bytesPerLine : Int))])
  else (c, [])

/-- `Cursor.move_x`: horizontal move with wrapping to the adjacent line. -/
def move_x (c : Cursor) (delta : Int) : Cursor × List Notif :=
  let newX := c.x + delta
  let currentY := c.y
  let bpl : Int := (c.bytesPerLine : Int)
  if newX < 0 then
    if currentY > 0 then
      let newY := currentY - 1
      let newX2 := bpl - 1
      let newPosition := newY * bpl + newX2
      c.set_position (max 0 (min newPosition ((c.fileSize : Int) - 1)))
    else (c, [])
  else if newX ≥ bpl then
    let maxY := ((c.fileSize : Int) - 1).fdiv bpl
    if currentY < maxY then
      let newY := currentY + 1
      let newPosition := newY * bpl + 0
      c.set_position (max 0 (min newPosition ((c.fileSize : Int) - 1)))
    else (c, [])
  else
    let newPosition := currentY * bpl + newX
    c.set_position (max 0 (min newPosition ((c.fileSize : Int) - 1)))

/-- `Cursor.move_y`: vertical move preserving the column, clamped to the
maximal line reachable with the current column. -/
def move_y (c : Cursor) (delta : Int) : Cursor × List Notif :=
  let currentX := c.x
  let currentY := c.y
  let bpl : Int := (c.bytesPerLine : Int)
  let maxPossibleY := ((c.fileSize : Int) - 1 - currentX).fdiv bpl
  let newY := max 0 (min (currentY + delta) maxPossibleY)
  if newY = currentY then (c, [])
  else c.set_position (newY * bpl + currentX)

/-- `Cursor.set_x`. -/
def set_x (c : Cursor) (xArg : Int) : Cursor × List Notif :=
  let currentY := c.y
  let bpl : Int := (c.bytesPerLine : Int)
  let newX := max 0 (min xArg (bpl - 1))
  let newPosition := currentY * bpl + newX
  c.set_position (max 0 (min newPosition ((c.fileSize : Int) - 1)))

/-- `Cursor.set_y`.  Note the final clamp is `min` only: unlike its siblings
it lacks the `max 0 _` guard. -/
def set_y (c : Cursor) (yArg : Int) : Cursor × List Notif :=
  let currentX := c.x
  let bpl : Int := (c.bytesPerLine : Int)
  let maxY := max 0 (((c.fileSize : Int) - 1).fdiv bpl)
  let newY := max 0 (min yArg maxY)
  let newPosition := newY * bpl + currentX
  let newPosition2 := min newPosition ((c.fileSize : Int) - 1)
  c.set_position newPosition2

/-- `Cursor._move_to_file_start`. -/
def move_to_file_start (c : Cursor) : Cursor × List Notif :=
  c.set_position 0

/-- `Cursor._move_to_file_end`. -/
def move_to_file_end (c : Cursor) : Cursor × List Notif :=
  if c.fileSize > 0 then c.set_position ((c.fileSize : Int) - 1) else (c, [])

/-- The cursor's `active_style`: `Style(bgcolor="bright_white", color="black")`. -/
def activeStyle : Style := ⟨some "black", some "bright_white", none⟩

/-- `Cursor._combine_styles`. -/
def combineStyles (existing : Option Style) (new : Style) : Style :=
  match existing with
  | none => new
  | some s => s.add new

/-- `Cursor.highlight`: highlight the byte under the cursor when the cursor is
active and falls inside the rendered span. -/
def highlight (c : Cursor) (data : List Nat) (fileOffset : Nat)
    (styles : List (Option Style)) : List (Option Style) :=
  if data = [] ∨ c.isActive = false then styles
  else
    let dataStart : Int := (fileOffset : Int)
    let dataEnd : Int := (fileOffset : Int) + data.length
    if c.position ≥ dataStart ∧ c.position < dataEnd then
      let cursorIndex := (c.position - dataStart).toNat
      styles.set cursorIndex
        (some (combineStyles (styles.getD cursorIndex none) activeStyle))
    else styles

/-- The notification discipline required of one cursor operation starting
from `c` (spec section 4.2): when the stored position actually changed, the
position-changed callback fires exactly once and the scroll-request callback
fires with the new line; when it did not change, nothing fires and the state
is untouched. -/
def notifiesOnce (c : Cursor) (r : Cursor × List Notif) : Prop :=
  (r.1.position ≠ c.position →
    r.2 = [Notif.positionChanged r.1.position,
           Notif.scrollRequest (r.1.position.fdiv (c.bytesPerLine : Int))]) ∧
  (r.1.position = c.position → r = (c, []))

/-- Modelled from the spec: `move_word` of the released cursor
(`texxd/cursors/cursor.py`) is not under `src` (only
`tests/test_navigation.py` exercises it).  Spec section 4.2: shifts by
`delta_words * word_size` bytes, clamped to file bounds, a no-op when the
size is 0. -/
def move_word (c : Cursor) (deltaWords : Int) (wordSize : Int) : Cursor × List Notif :=
  if c.fileSize = 0 then (c, [])
  else
    c.set_position
      (max 0 (min (c.position + deltaWords * wordSize) ((c.fileSize : Int) - 1)))

/-- Modelled from the spec: `handle_navigation` of the released cursor
(`texxd/cursors/cursor.py`) is not under `src` (only
`tests/test_navigation.py` exercises it).  Spec section 4.2: a fixed
dispatch table mapping named keys to the operations above, returning whether
the key was consumed; `ctrl+left`/`ctrl+right` map to word movement with the
default word size 4. -/
def handleNavigation (c : Cursor) (key : String) : (Cursor × List Notif) × Bool :=
  if key = "left" then (c.move_x (-1), true)
  else if key = "right" then (c.move_x 1, true)
  else if key = "up" then (c.move_y (-1), true)
  else if key = "down" then (c.move_y 1, true)
  else if key = "home" ∨ key = "\x01" then (c.set_x 0, true)
  else if key = "end" ∨ key = "\x04" then (c.set_x ((c.bytesPerLine : Int) - 1), true)
  else if key = "ctrl+home" then (c.move_to_file_start, true)
  else if key = "ctrl+end" then (c.move_to_file_end, true)
  else if key = "ctrl+left" then (c.move_word (-1) 4, true)
  else if key = "ctrl+right" then (c.move_word 1 4, true)
  else if key = "pageup" then (c.move_y (-(c.viewHeight : Int)), true)
  else if key = "pagedown" then (c.move_y (c.viewHeight : Int), true)
  else ((c, []), false)

end Cursor

/-! ## Columns (`src/texthed/columns/hex.py`, `src/texthed/columns/ascii.py`)

`render_line` computes a per-byte style array through the highlighter
pipeline and then builds the segments; the segment-building loops only read
that array, so the embedding passes the style array as an argument. -/

/-- `styles[i] if i < len(styles) else Style()` (the elements themselves are
`Optional[Style]`). -/
def styleAt (styles : List (Option Style)) (i : Nat) : Option Style :=
  if i < styles.length then styles.getD i none else some Style.empty

/-- A lowercase hexadecimal digit character. -/
def hexDigitChar (n : Nat) : Char :=
  if n < 10 then Char.ofNat (48 + n) else Char.ofNat (87 + n)

/-- The lowercase hexadecimal digits of `n`, most significant first. -/
def hexDigits (n : Nat) : List Char :=
  if _h : n < 16 then [hexDigitChar n]
  else hexDigits (n / 16) ++ [hexDigitChar (n % 16)]
decreasing_by
  exact Nat.div_lt_self (by omega) (by omega)

/-- Python `f"{b:02x}"`: lowercase hex, zero-padded to at least two digits. -/
def hexStr (b : Nat) : String :=
  let s := hexDigits b
  ⟨if s.length < 2 then List.replicate (2 - s.length) '0' ++ s else s⟩

/-- `byte_to_ascii` (`hex_view.py`) and the inline conversion in
`AsciiColumn.render_line`: `chr(byte) if 32 <= byte <= 127 else "."`. -/
def byteToAscii (b : Nat) : String :=
  if 32 ≤ b ∧ b ≤ 127 then String.singleton (Char.ofNat b) else "."

/-- `HexColumn.width`: `bytes_per_line*3 - 1`, one extra separator after the
8th byte when `bytes_per_line > 8`, plus one trailing separator. -/
def HexColumn.width (bytesPerLine : Nat) : Nat :=
  bytesPerLine * 3 - 1 + (if bytesPerLine > 8 then 1 else 0) + 1

/-- `AsciiColumn.width`. -/
def AsciiColumn.width (bytesPerLine : Nat) : Nat := bytesPerLine

/-- `HexColumn.render_line` segment construction: per rendered byte an extra
separator before index 8, two hex digits, and a separator except after the
line's last byte; then the padding loop over the missing indices with two
blank cells each; then the trailing separator. -/
def HexColumn.renderLine (bytesPerLine : Nat) (data : List Nat)
    (styles : List (Option Style)) : List Segment :=
  ((List.range data.length).flatMap fun i =>
      (if i = 8 then [((" " : String), some Style.empty)] else [])
        ++ [((hexStr (data.getD i 0) : String), styleAt styles i)]
        ++ (if i < bytesPerLine - 1 then [((" " : String), some Style.empty)] else []))
    ++ ((List.range' data.length (bytesPerLine - data.length)).flatMap fun i =>
      (if i = 8 then [((" " : String), some Style.empty)] else [])
        ++ [(("  " : String), some Style.empty)]
        ++ (if i < bytesPerLine - 1 then [((" " : String), some Style.empty)] else []))
    ++ [((" " : String), some Style.empty)]

/-- `AsciiColumn.render_line` segment construction: one cell per byte, blank
cells for the missing indices of a short final line. -/
def AsciiColumn.renderLine (bytesPerLine : Nat) (data : List Nat)
    (styles : List (Option Style)) : List Segment :=
  ((List.range data.length).map fun i =>
      ((byteToAscii (data.getD i 0) : String), styleAt styles i))
    ++ (List.range' data.length (bytesPerLine - data.length)).map
        (fun _ => ((" " : String), some Style.empty))

end Texxd

namespace Texxd
namespace HexFile

theorem applyOverlay_length (rs : Nat) (res : List Nat) (e : Nat × List Nat) :
    (applyOverlay rs res e).length = res.length := by
  unfold applyOverlay
  dsimp only
  split
  · rfl
  · rename_i h
    push_neg at h
    simp only [List.length_append, List.length_take, List.length_drop]
    omega

theorem applyOverlay_getD (rs : Nat) (res : List Nat) (off : Nat) (d : List Nat)
    (i : Nat) (hi : i < res.length) :
    (applyOverlay rs res (off, d)).getD i 0 =
      if off ≤ rs + i ∧ rs + i < off + d.length then d.getD (rs + i - off) 0
      else res.getD i 0 := by
  unfold applyOverlay
  dsimp only
  split
  · rename_i h
    rw [if_neg (by omega)]
  · rename_i h
    push_neg at h
    obtain ⟨hbe, hoff⟩ := h
    simp only [List.getD_eq_getElem?_getD, List.append_assoc, List.getElem?_append,
      List.length_take, List.length_drop, List.getElem?_take, List.getElem?_drop]
    rcases Nat.lt_or_ge (rs + i) (max rs off) with hr1 | hr1
    · rw [if_pos (by omega), if_pos (by omega), if_neg (by omega)]
    · rcases Nat.lt_or_ge (rs + i) (min (rs + res.length) (off + d.length)) with hr2 | hr2
      · rw [if_neg (by omega), if_pos (by omega), if_pos (by omega), if_pos (by omega)]
        congr 2
        omega
      · rw [if_neg (by omega), if_neg (by omega), if_neg (by omega)]
        congr 2
        omega

end HexFile
end Texxd

namespace Texxd
namespace HexFile

theorem foldl_applyOverlay_length (rs : Nat) (buf : List (Nat × List Nat))
    (res : List Nat) : (buf.foldl (applyOverlay rs) res).length = res.length := by
  induction buf generalizing res with
  | nil => rfl
  | cons e buf ih => rw [List.foldl_cons, ih, applyOverlay_length]

theorem foldl_applyOverlay_nil (rs : Nat) (buf : List (Nat × List Nat)) :
    buf.foldl (applyOverlay rs) [] = [] := by
  have h := foldl_applyOverlay_length rs buf []
  exact List.length_eq_zero.mp (by simpa using h)

theorem read_eq_foldl (st : HexFile) (s : Nat) (hs : st.position + s ≤ st.fileSize) :
    (st.read (s : Int)).1 =
      st.writeBuffer.foldl (applyOverlay st.position)
        ((st.backing.drop st.position).take (min s (st.backing.length - st.position))
          ++ zeros (s - min s (st.backing.length - st.position))) := by
  rcases Nat.eq_zero_or_pos s with hz | hpos
  · subst hz
    simp [read, zeros, foldl_applyOverlay_nil]
  · simp only [read]
    rw [if_neg (by omega), if_neg (by omega), if_neg (by omega)]
    have hact : (min (s : Int) ((st.fileSize : Int) - (st.position : Int))).toNat = s := by
      omega
    rw [hact]
    have hlen : ((st.backing.drop st.position).take
        (min s (st.backing.length - st.position))).length
        = min s (st.backing.length - st.position) := by
      simp only [List.length_take, List.length_drop]
      omega
    rw [hlen]

theorem pre_getD (backing : List Nat) (r s i : Nat) (hi : i < s) :
    ((backing.drop r).take (min s (backing.length - r))
      ++ zeros (s - min s (backing.length - r))).getD i 0 =
      if r + i < backing.length then backing.getD (r + i) 0 else 0 := by
  simp only [List.getD_eq_getElem?_getD, List.getElem?_append, List.getElem?_take,
    List.getElem?_drop, List.length_take, List.length_drop, zeros,
    List.getElem?_replicate]
  split_ifs <;> first | rfl | omega

theorem read_length (st : HexFile) (s : Nat) (hs : st.position + s ≤ st.fileSize) :
    (st.read (s : Int)).1.length = s := by
  rw [read_eq_foldl st s hs, foldl_applyOverlay_length]
  simp only [List.length_append, List.length_take, List.length_drop, zeros,
    List.length_replicate]
  omega

end HexFile
end Texxd

namespace Texxd
namespace HexFile

theorem seek_set (st : HexFile) (r : Nat) : st.seek (r : Int) 0 = { st with position := r } := by
  have h : (max 0 ((r : Nat) : Int)).toNat = r := by omega
  simp [seek, h]

theorem read_single (backing d : List Nat) (k r s N : Nat) (hN : r + s ≤ N) :
    (read ⟨backing, [(k, d)], r, N⟩ (s : Int)).1 =
      (List.range s).map (fun i =>
        if k ≤ r + i ∧ r + i < k + d.length then d.getD (r + i - k) 0
        else if r + i < backing.length then backing.getD (r + i) 0 else 0) := by
  have hlen : (read ⟨backing, [(k, d)], r, N⟩ (s : Int)).1.length = s :=
    read_length ⟨backing, [(k, d)], r, N⟩ s hN
  apply List.ext_getElem
  · rw [hlen, List.length_map, List.length_range]
  · intro n h1 h2
    rw [← List.getD_eq_getElem _ 0 h1, ← List.getD_eq_getElem _ 0 h2]
    have hn : n < s := by rw [hlen] at h1; exact h1
    have hpre : ((backing.drop r).take (min s (backing.length - r))
        ++ zeros (s - min s (backing.length - r))).length = s := by
      simp only [List.length_append, List.length_take, List.length_drop, zeros,
        List.length_replicate]
      omega
    rw [read_eq_foldl ⟨backing, [(k, d)], r, N⟩ s hN]
    show ((applyOverlay r _ (k, d)).getD n 0) = _
    rw [applyOverlay_getD r _ k d n (by rw [hpre]; exact hn)]
    rw [pre_getD backing r s n hn]
    rw [List.getD_eq_getElem _ 0 h2, List.getElem_map, List.getElem_range]

end HexFile
end Texxd

namespace Texxd
namespace HexFile

theorem fileWrite_length (f : List Nat) (off : Nat) (data : List Nat) (h : data ≠ []) :
    (fileWrite f off data).length = max f.length (off + data.length) := by
  unfold fileWrite
  rw [if_neg h]
  split <;>
    simp only [List.length_append, List.length_take, List.length_drop, zeros,
      List.length_replicate] <;> omega

theorem fileWrite_getD (f : List Nat) (off : Nat) (data : List Nat) (h : data ≠ [])
    (i : Nat) :
    (fileWrite f off data).getD i 0 =
      if off ≤ i ∧ i < off + data.length then data.getD (i - off) 0
      else if i < f.length then f.getD i 0 else 0 := by
  unfold fileWrite
  rw [if_neg h]
  split
  · rename_i hoff
    simp only [List.getD_eq_getElem?_getD, List.append_assoc, List.getElem?_append,
      List.getElem?_take, List.getElem?_drop, List.length_take, List.length_drop,
      List.length_append]
    split_ifs <;>
      first
        | rfl
        | omega
        | (congr 2; omega)
        | (rw [List.getElem?_eq_none (by omega)]; rfl)
        | (rw [List.getElem?_eq_none (by omega)])
  · rename_i hoff
    push_neg at hoff
    simp only [List.getD_eq_getElem?_getD, List.append_assoc, List.getElem?_append,
      zeros, List.getElem?_replicate, List.length_replicate]
    split_ifs <;>
      first
        | rfl
        | omega
        | (congr 2; omega)
        | (rw [List.getElem?_eq_none (by omega)]; rfl)
        | (rw [List.getElem?_eq_none (by omega)])

theorem dictInsert_append (buf : List (Nat × List Nat)) (k : Nat) (v : List Nat)
    (h : ∀ e ∈ buf, e.1 ≠ k) : dictInsert buf k v = buf ++ [(k, v)] := by
  unfold dictInsert
  rw [if_neg]
  intro hc
  rw [List.any_eq_true] at hc
  obtain ⟨e, he, hek⟩ := hc
  exact h e he (by simpa using hek)

theorem writeAt_state (st : HexFile) (o : Nat) (data : List Nat) (h : data ≠ []) :
    st.writeAt o data =
      ⟨st.backing, dictInsert st.writeBuffer o data, o + data.length,
        if o + data.length > st.fileSize then o + data.length else st.fileSize⟩ := by
  unfold writeAt
  rw [seek_set]
  simp [write, h]

end HexFile
end Texxd

namespace Texxd
namespace HexFile

theorem foldl_size_le (ws : List (Nat × List Nat)) (n : Nat) :
    n ≤ ws.foldl (fun n w => if w.1 + w.2.length > n then w.1 + w.2.length else n) n := by
  induction ws generalizing n with
  | nil => simp
  | cons w ws ih =>
    rw [List.foldl_cons]
    exact le_trans (by split <;> omega) (ih _)

theorem foldl_size_mem (ws : List (Nat × List Nat)) (n : Nat) (w : Nat × List Nat)
    (hw : w ∈ ws) :
    w.1 + w.2.length ≤
      ws.foldl (fun n w => if w.1 + w.2.length > n then w.1 + w.2.length else n) n := by
  induction ws generalizing n with
  | nil => cases hw
  | cons a ws ih =>
    rw [List.foldl_cons]
    rcases List.mem_cons.mp hw with h | h
    · subst h
      exact le_trans (by split <;> omega) (foldl_size_le ws _)
    · exact ih _ h

theorem applyWrites_state (ws : List (Nat × List Nat)) (st : HexFile)
    (hne : ∀ w ∈ ws, w.2 ≠ [])
    (hgt : ∀ w ∈ ws, ∀ e ∈ st.writeBuffer, e.1 < w.1)
    (hsorted : List.Pairwise (fun a b => a.1 < b.1) ws) :
    (applyWrites st ws).backing = st.backing ∧
    (applyWrites st ws).writeBuffer = st.writeBuffer ++ ws ∧
    (applyWrites st ws).fileSize =
      ws.foldl (fun n w => if w.1 + w.2.length > n then w.1 + w.2.length else n)
        st.fileSize := by
  induction ws generalizing st with
  | nil => simp [applyWrites]
  | cons w ws ih =>
    have hw : w.2 ≠ [] := hne w (by simp)
    have hstep : st.writeAt w.1 w.2 =
        ⟨st.backing, st.writeBuffer ++ [w], w.1 + w.2.length,
          if w.1 + w.2.length > st.fileSize then w.1 + w.2.length else st.fileSize⟩ := by
      rw [writeAt_state st w.1 w.2 hw,
        dictInsert_append _ _ _ (fun e he => Nat.ne_of_lt (hgt w (by simp) e he))]
    have happ : applyWrites st (w :: ws) = applyWrites (st.writeAt w.1 w.2) ws := by
      simp [applyWrites]
    rw [happ, hstep]
    have hrec := ih ⟨st.backing, st.writeBuffer ++ [w], w.1 + w.2.length,
        if w.1 + w.2.length > st.fileSize then w.1 + w.2.length else st.fileSize⟩
      (fun v hv => hne v (by simp [hv]))
      (by
        intro v hv e he
        rcases List.mem_append.mp he with h | h
        · exact lt_trans (hgt w (by simp) e h) (List.rel_of_pairwise_cons hsorted hv)
        · simp at h
          subst h
          exact List.rel_of_pairwise_cons hsorted hv)
      (hsorted.of_cons)
    refine ⟨hrec.1, ?_, ?_⟩
    · rw [hrec.2.1]
      simp
    · rw [hrec.2.2]
      rw [List.foldl_cons]

theorem sortEntries_sorted (ws : List (Nat × List Nat))
    (h : List.Pairwise (fun a b => a.1 < b.1) ws) : sortEntries ws = ws := by
  induction ws with
  | nil => rfl
  | cons w ws ih =>
    rw [sortEntries, ih h.of_cons]
    cases ws with
    | nil => rfl
    | cons y ys =>
      rw [insertEntry, if_pos (le_of_lt (List.rel_of_pairwise_cons h (by simp)))]

theorem eq_of_getD (a b : List Nat) (hlen : a.length = b.length)
    (h : ∀ i, a.getD i 0 = b.getD i 0) : a = b := by
  apply List.ext_getElem hlen
  intro n h1 h2
  rw [← List.getD_eq_getElem a 0 h1, ← List.getD_eq_getElem b 0 h2]
  exact h n

theorem getD_append_zeros (b : List Nat) (m i : Nat) :
    b.getD i 0 = (b ++ zeros m).getD i 0 := by
  simp only [List.getD_eq_getElem?_getD, List.getElem?_append, zeros,
    List.getElem?_replicate]
  split_ifs <;>
    first
      | rfl
      | omega
      | ((rw [List.getElem?_eq_none (by omega)]) <;> rfl)

theorem save_backing (st : HexFile) :
    st.save.backing =
      (sortEntries st.writeBuffer).foldl (fun f e => fileWrite f e.1 e.2) st.backing := by
  unfold save
  split
  · rename_i h
    rw [h]
    rfl
  · rfl

theorem save_writeBuffer (st : HexFile) : st.save.writeBuffer = [] := by
  unfold save
  split
  · rename_i h
    exact h
  · rfl

theorem foldl_fileWrite_length (entries : List (Nat × List Nat)) (g : List Nat)
    (hne : ∀ e ∈ entries, e.2 ≠ []) :
    (entries.foldl (fun f e => fileWrite f e.1 e.2) g).length =
      entries.foldl (fun n w => if w.1 + w.2.length > n then w.1 + w.2.length else n)
        g.length := by
  induction entries generalizing g with
  | nil => rfl
  | cons e entries ih =>
    rw [List.foldl_cons, List.foldl_cons, ih _ (fun v hv => hne v (by simp [hv]))]
    congr 1
    rw [fileWrite_length _ _ _ (hne e (by simp))]
    split <;> omega

theorem foldl_agree (entries : List (Nat × List Nat)) (g p : List Nat)
    (hne : ∀ e ∈ entries, e.2 ≠ [])
    (hends : ∀ e ∈ entries, e.1 + e.2.length ≤ p.length)
    (hlen : g.length ≤ p.length)
    (heq : ∀ i, g.getD i 0 = p.getD i 0) :
    (∀ i, (entries.foldl (fun f e => fileWrite f e.1 e.2) g).getD i 0 =
      (entries.foldl (applyOverlay 0) p).getD i 0) ∧
    (entries.foldl (applyOverlay 0) p).length = p.length := by
  induction entries generalizing g p with
  | nil => exact ⟨heq, rfl⟩
  | cons e entries ih =>
    have hee : e.2 ≠ [] := hne e (by simp)
    have hend : e.1 + e.2.length ≤ p.length := hends e (by simp)
    have hplen : (applyOverlay 0 p e).length = p.length := applyOverlay_length 0 p e
    have hglen : (fileWrite g e.1 e.2).length ≤ p.length := by
      rw [fileWrite_length _ _ _ hee]
      omega
    have hstep : ∀ i, (fileWrite g e.1 e.2).getD i 0 = (applyOverlay 0 p e).getD i 0 := by
      intro i
      rcases Nat.lt_or_ge i p.length with hip | hip
      · rw [fileWrite_getD _ _ _ hee i]
        have := applyOverlay_getD 0 p e.1 e.2 i hip
        rw [show (e.1, e.2) = e from rfl] at this
        rw [this]
        simp only [Nat.zero_add]
        split_ifs <;>
          first
            | rfl
            | omega
            | (rw [← heq i]; done)
            | (rw [← heq i, List.getD_eq_default _ _ (by omega)])
      · rw [List.getD_eq_default _ _ (by omega),
          List.getD_eq_default _ _ (by omega)]
    have hrec := ih (fileWrite g e.1 e.2) (applyOverlay 0 p e)
      (fun v hv => hne v (by simp [hv]))
      (fun v hv => by rw [hplen]; exact hends v (by simp [hv]))
      (by rw [hplen]; exact hglen)
      (fun i => by rw [hstep i])
    rw [List.foldl_cons, List.foldl_cons]
    exact ⟨hrec.1, by rw [hrec.2, hplen]⟩

end HexFile
end Texxd

namespace Texxd
namespace HexFile

theorem read_all_eq (st : HexFile) (h0 : st.position = 0) :
    st.read (-1) = st.read ((st.fileSize : Int)) := by
  simp only [read, h0]
  norm_num

theorem seek_zero (st : HexFile) : st.seek 0 0 = { st with position := 0 } := by
  simpa using seek_set st 0

end HexFile
end Texxd

namespace Texxd
namespace HexFile

theorem save_reflects_reads (backing : List Nat) (ws : List (Nat × List Nat))
    (hne : ∀ w ∈ ws, w.2 ≠ [])
    (hsorted : List.Pairwise (fun a b => a.1 < b.1) ws) :
    (((applyWrites (init backing) ws).seek 0 0).read (-1)).1 =
      (applyWrites (init backing) ws).save.backing ∧
    (applyWrites (init backing) ws).save.hasUnsavedChanges = false ∧
    (applyWrites (init backing) ws).save.getUnsavedRanges = [] := by
  obtain ⟨hback, hbuf, hsize⟩ :=
    applyWrites_state ws (init backing) hne (by simp [init]) hsorted
  set st := applyWrites (init backing) ws with hst
  have hbuf' : st.writeBuffer = ws := by rw [hbuf]; simp [init]
  have hback' : st.backing = backing := by rw [hback]; rfl
  have hN : st.fileSize =
      ws.foldl (fun n w => if w.1 + w.2.length > n then w.1 + w.2.length else n)
        backing.length := by
    rw [hsize]; rfl
  have hblN : backing.length ≤ st.fileSize := by
    rw [hN]; exact foldl_size_le ws backing.length
  have hplen : (backing ++ zeros (st.fileSize - backing.length)).length = st.fileSize := by
    simp only [List.length_append, zeros, List.length_replicate]
    omega
  have hread : ((st.seek 0 0).read (-1)).1 =
      ws.foldl (applyOverlay 0) (backing ++ zeros (st.fileSize - backing.length)) := by
    rw [seek_zero, read_all_eq _ rfl, read_eq_foldl _ _ (by simp)]
    dsimp only
    rw [hbuf', hback', List.drop_zero, Nat.sub_zero, Nat.min_eq_right hblN,
      List.take_length]
  have hsave : st.save.backing = ws.foldl (fun f e => fileWrite f e.1 e.2) backing := by
    rw [save_backing, hbuf', sortEntries_sorted ws hsorted, hback']
  have hag := foldl_agree ws backing (backing ++ zeros (st.fileSize - backing.length))
    hne
    (fun e he => by rw [hplen, hN]; exact foldl_size_mem ws _ e he)
    (by rw [hplen]; exact hblN)
    (fun i => getD_append_zeros backing _ i)
  have hlenG : (ws.foldl (fun f e => fileWrite f e.1 e.2) backing).length = st.fileSize := by
    rw [foldl_fileWrite_length ws backing hne, hN]
  refine ⟨?_, ?_, ?_⟩
  · rw [hread, hsave]
    exact (eq_of_getD _ _ (by rw [hlenG, hag.2, hplen]) hag.1).symm
  · simp [hasUnsavedChanges, save_writeBuffer]
  · simp [getUnsavedRanges, save_writeBuffer, sortRanges]

end HexFile
end Texxd

namespace Texxd
namespace Cursor

theorem notifiesOnce_set_position (c : Cursor) (p : Int) :
    c.notifiesOnce (c.set_position p) := by
  unfold notifiesOnce set_position
  by_cases hp : p = c.position
  · simp [hp]
  · rw [if_pos hp]
    exact ⟨fun _ => rfl, fun hcontra => absurd hcontra hp⟩

theorem notifiesOnce_noop (c : Cursor) : c.notifiesOnce (c, []) :=
  ⟨fun h => absurd rfl h, fun _ => rfl⟩

theorem set_position_fst (c : Cursor) (p : Int) : (c.set_position p).1.position = p := by
  unfold set_position
  split_ifs with h
  · rfl
  · exact (not_not.mp h).symm

end Cursor
end Texxd

namespace Texxd

theorem hexStr_length (b : Nat) (hb : b < 256) : (hexStr b).length = 2 := by
  unfold hexStr
  rcases Nat.lt_or_ge b 16 with h16 | h16
  · rw [hexDigits, dif_pos h16]
    simp [String.length_mk]
  · have hdiv : b / 16 < 16 := by omega
    rw [hexDigits, dif_neg (by omega), hexDigits, dif_pos hdiv]
    simp [String.length_mk]

theorem byteToAscii_length (b : Nat) : (byteToAscii b).length = 1 := by
  unfold byteToAscii
  split_ifs
  · exact String.length_singleton _
  · rfl

theorem cells_nil : cells [] = 0 := rfl

theorem cells_singleton (s : Segment) : cells [s] = s.1.length := by simp [cells]

theorem cells_append (a b : List Segment) : cells (a ++ b) = cells a + cells b := by
  simp [cells]

theorem cells_flatMap (l : List Nat) (f : Nat → List Segment) :
    cells (l.flatMap f) = (l.map fun i => cells (f i)).sum := by
  induction l with
  | nil => rfl
  | cons a l ih => rw [List.flatMap_cons, cells_append, ih, List.map_cons, List.sum_cons]

theorem sum_map_one (l : List Nat) : (l.map fun _ => (1 : Nat)).sum = l.length := by
  induction l with
  | nil => rfl
  | cons a l ih => simp [ih, Nat.add_comm]

theorem weight_sum (n k : Nat) :
    ((List.range n).map fun i =>
        (if i = 8 then 1 else 0) + (2 + (if i < k then 1 else 0))).sum
      = (if 8 < n then 1 else 0) + 2 * n + min n k := by
  induction n with
  | zero => simp
  | succ n ih =>
    rw [List.range_succ, List.map_append, List.sum_append, ih]
    simp only [List.map_cons, List.map_nil, List.sum_cons, List.sum_nil]
    split_ifs <;> omega

theorem range_append_range' (d m : Nat) :
    List.range d ++ List.range' d m = List.range (d + m) := by
  rw [List.range_eq_range', List.range_eq_range', Nat.add_comm d m,
    ← List.range'_append 0 d m 1]
  norm_num

end Texxd

namespace Texxd

/-- C1: for every backing-file content, every in-bounds write of non-empty
bytes at offset `o`, and every valid `(r, s)` read range, reading after the
write returns the written bytes exactly over the written range and the
original backing-file bytes everywhere else in the range, zero-filled beyond
the backing file's actual length but within the logical size. -/
theorem C1_read_after_write (backing data : List Nat) (o r s : Nat)
    (hdata : data ≠ []) (ho : o ≤ backing.length)
    (hrange : r + s ≤ ((HexFile.init backing).writeAt o data).fileSize) :
    ((((HexFile.init backing).writeAt o data).seek (r : Int) 0).read (s : Int)).1 =
      (List.range s).map (fun i =>
        if o ≤ r + i ∧ r + i < o + data.length then data.getD (r + i - o) 0
        else if r + i < backing.length then backing.getD (r + i) 0 else 0) := by
  rw [HexFile.writeAt_state _ _ _ hdata] at hrange ⊢
  rw [HexFile.seek_set]
  exact HexFile.read_single backing data o r s _ hrange

/-- C1 witness: the spec's concrete scenario, a 10-byte store `ABCDEFGHIJ`
with `XY` written at offset 2, reads back as `ABXYEFGHIJ`. -/
theorem C1_witness :
    ((((HexFile.init [65,66,67,68,69,70,71,72,73,74]).writeAt 2 [88,89]).seek
        ((0 : Nat) : Int) 0).read ((10 : Nat) : Int)).1
      = [65,66,88,89,69,70,71,72,73,74] := by
  rw [C1_read_after_write [65,66,67,68,69,70,71,72,73,74] [88,89] 2 0 10 (by decide)
    (by decide) (by decide)]
  decide

/-- C2 counterexample: with overlapping writes recorded at descending offsets
(`"22"` at 2 inserted before `"0000"` at 0 over backing `"AAAA"`), `read()`
resolves the overlap in insertion order (`"0000"`) while `save()` applies
entries in ascending offset order (`"0022"`), so the saved file differs from
the read. -/
theorem C2_counterexample :
    ¬ ((((HexFile.applyWrites (HexFile.init [65,65,65,65])
            [(2, [50,50]), (0, [48,48,48,48])]).seek 0 0).read (-1)).1
        = (HexFile.applyWrites (HexFile.init [65,65,65,65])
            [(2, [50,50]), (0, [48,48,48,48])]).save.backing) := by
  decide

/-- C2 (amended): when the writes are recorded at strictly ascending offsets
(so insertion order and offset order agree), `save()` followed by reading the
backing file externally yields exactly the bytes the full-store `read()`
returned before the save; and after `save()`, `has_unsaved_changes()` is
false and `get_unsaved_ranges()` is empty. -/
theorem C2_save_after_ascending_writes (backing : List Nat)
    (ws : List (Nat × List Nat))
    (hne : ∀ w ∈ ws, w.2 ≠ [])
    (hsorted : List.Pairwise (fun a b => a.1 < b.1) ws) :
    (((HexFile.applyWrites (HexFile.init backing) ws).seek 0 0).read (-1)).1 =
      (HexFile.applyWrites (HexFile.init backing) ws).save.backing ∧
    (HexFile.applyWrites (HexFile.init backing) ws).save.hasUnsavedChanges = false ∧
    (HexFile.applyWrites (HexFile.init backing) ws).save.getUnsavedRanges = [] :=
  HexFile.save_reflects_reads backing ws hne hsorted

/-- C2 witness: backing `ABCDEFGHIJ` with `XY` written at 2 and `Z` at 7
(ascending offsets): the pre-save read equals the saved file's bytes and the
overlay is cleared. -/
theorem C2_witness :
    (((HexFile.applyWrites (HexFile.init [65,66,67,68,69,70,71,72,73,74])
          [(2, [88,89]), (7, [90])]).seek 0 0).read (-1)).1 =
      (HexFile.applyWrites (HexFile.init [65,66,67,68,69,70,71,72,73,74])
          [(2, [88,89]), (7, [90])]).save.backing ∧
    (HexFile.applyWrites (HexFile.init [65,66,67,68,69,70,71,72,73,74])
          [(2, [88,89]), (7, [90])]).save.hasUnsavedChanges = false := by
  have h := C2_save_after_ascending_writes [65,66,67,68,69,70,71,72,73,74]
    [(2, [88,89]), (7, [90])] (by decide) (by decide)
  exact ⟨h.1, h.2.1⟩

/-- C8: a second write recorded at exactly the same offset replaces the
earlier overlay entry entirely: the buffer holds only the new bytes at that
offset, `get_unsaved_ranges()` reports one range per distinct start offset,
and reads show the new bytes over the new range with backing-file content
everywhere else (the earlier write's tail bytes are gone). -/
theorem C8_same_offset_replaces (backing d1 d2 : List Nat) (o r s : Nat)
    (h1 : d1 ≠ []) (h2 : d2 ≠ [])
    (hrange : r + s ≤ (((HexFile.init backing).writeAt o d1).writeAt o d2).fileSize) :
    (((HexFile.init backing).writeAt o d1).writeAt o d2).writeBuffer = [(o, d2)] ∧
    (((HexFile.init backing).writeAt o d1).writeAt o d2).getUnsavedRanges
      = [(o, o + d2.length)] ∧
    (((((HexFile.init backing).writeAt o d1).writeAt o d2).seek (r : Int) 0).read
        (s : Int)).1 =
      (List.range s).map (fun i =>
        if o ≤ r + i ∧ r + i < o + d2.length then d2.getD (r + i - o) 0
        else if r + i < backing.length then backing.getD (r + i) 0 else 0) := by
  have e1 : (HexFile.init backing).writeAt o d1 =
      ⟨backing, [(o, d1)], o + d1.length,
        if o + d1.length > backing.length then o + d1.length else backing.length⟩ :=
    HexFile.writeAt_state (HexFile.init backing) o d1 h1
  rw [e1, HexFile.writeAt_state _ _ _ h2] at hrange ⊢
  have hdj : HexFile.dictInsert [(o, d1)] o d2 = [(o, d2)] := by
    simp [HexFile.dictInsert]
  rw [hdj]
  refine ⟨rfl, ?_, ?_⟩
  · simp [HexFile.getUnsavedRanges, HexFile.sortRanges, HexFile.insertRange]
  · rw [HexFile.seek_set]
    exact HexFile.read_single backing d2 o r s _ hrange

/-- C8 witness: writing `XYZ` at 2 and then `M` at the same offset 2 over
`ABCDEFGHIJ` leaves one buffer entry `(2, "M")` and reads back
`ABMDEFGHIJ` — the tail `YZ` of the first write is gone. -/
theorem C8_witness :
    (((HexFile.init [65,66,67,68,69,70,71,72,73,74]).writeAt 2 [88,89,90]).writeAt 2
        [77]).writeBuffer = [(2, [77])] ∧
    (((((HexFile.init [65,66,67,68,69,70,71,72,73,74]).writeAt 2 [88,89,90]).writeAt 2
        [77]).seek ((0 : Nat) : Int) 0).read ((10 : Nat) : Int)).1
      = [65,66,77,68,69,70,71,72,73,74] := by
  have h := C8_same_offset_replaces [65,66,67,68,69,70,71,72,73,74] [88,89,90] [77]
    2 0 10 (by decide) (by decide) (by decide)
  exact ⟨h.1, h.2.2.trans (by decide)⟩

/-- C9: `read` advances the current position by exactly the number of bytes
returned and leaves the overlay mapping, the logical size, the backing bytes
and `has_unsaved_changes()` unchanged. -/
theorem C9_read_frame (st : HexFile) (size : Int) :
    (st.read size).2.position = st.position + (st.read size).1.length ∧
    (st.read size).2.writeBuffer = st.writeBuffer ∧
    (st.read size).2.fileSize = st.fileSize ∧
    (st.read size).2.backing = st.backing ∧
    (st.read size).2.hasUnsavedChanges = st.hasUnsavedChanges := by
  simp only [HexFile.read, HexFile.hasUnsavedChanges]
  split_ifs <;> simp

end Texxd

namespace Texxd

/-- C3: evaluation of the failing input for the claim that a size-0 store is a
navigation no-op with the position pinned at 0: `set_y 0` on a cursor over an
empty file moves the stored position to `-1` (the final clamp in `set_y` is
`min _ (size - 1)` without the `max 0 _` guard its sibling operations have). -/
theorem C3_set_y_on_empty_file :
    (Cursor.set_y ⟨0, 0, 16, 10, false⟩ 0).1.position = -1 := by decide

/-- C5: every cursor operation obeys the notification discipline of
`_set_position`: when the computed position differs from the stored one, the
position-changed notification fires exactly once and the scroll-request
notification fires with the new line; when it is equal, nothing fires and the
cursor is untouched. -/
theorem C5_notification_discipline (c : Cursor) (d xArg yArg : Int) :
    c.notifiesOnce (c.set_position d) ∧ c.notifiesOnce (c.move_x d) ∧
    c.notifiesOnce (c.move_y d) ∧ c.notifiesOnce (c.set_x xArg) ∧
    c.notifiesOnce (c.set_y yArg) ∧ c.notifiesOnce c.move_to_file_start ∧
    c.notifiesOnce c.move_to_file_end := by
  refine ⟨Cursor.notifiesOnce_set_position c d, ?_, ?_, ?_, ?_, ?_, ?_⟩
  · unfold Cursor.move_x
    dsimp only
    split_ifs <;>
      first
        | exact Cursor.notifiesOnce_set_position c _
        | exact Cursor.notifiesOnce_noop c
  · unfold Cursor.move_y
    dsimp only
    split_ifs <;>
      first
        | exact Cursor.notifiesOnce_set_position c _
        | exact Cursor.notifiesOnce_noop c
  · exact Cursor.notifiesOnce_set_position c _
  · exact Cursor.notifiesOnce_set_position c _
  · exact Cursor.notifiesOnce_set_position c _
  · unfold Cursor.move_to_file_end
    split_ifs <;>
      first
        | exact Cursor.notifiesOnce_set_position c _
        | exact Cursor.notifiesOnce_noop c

/-- C5 witness: on a 256-byte cursor at position 0, `move_x 1` fires exactly
the two notifications (position 1, line 0) and `move_x 0` fires nothing. -/
theorem C5_witness :
    (Cursor.move_x ⟨0, 256, 16, 10, false⟩ 1).2 =
      [Notif.positionChanged 1, Notif.scrollRequest 0] ∧
    Cursor.move_x ⟨0, 256, 16, 10, false⟩ 0 = (⟨0, 256, 16, 10, false⟩, []) := by
  have h := C5_notification_discipline ⟨0, 256, 16, 10, false⟩ 1 0 0
  have h0 := C5_notification_discipline ⟨0, 256, 16, 10, false⟩ 0 0 0
  exact ⟨((h.2.1).1 (by decide)).trans (by decide), (h0.2.1).2 (by decide)⟩

/-- C6: the navigation dispatch consumes `ctrl+left` and `ctrl+right`,
mapping them to word movement of `delta_words * word_size` bytes clamped to
the file bounds, with the default word size 4 (no-op on an empty file). -/
theorem C6_ctrl_word_navigation (c : Cursor) (dw wsz : Int) :
    (c.handleNavigation "ctrl+left").2 = true ∧
    (c.handleNavigation "ctrl+right").2 = true ∧
    (c.handleNavigation "ctrl+left").1 = c.move_word (-1) 4 ∧
    (c.handleNavigation "ctrl+right").1 = c.move_word 1 4 ∧
    (c.fileSize ≠ 0 →
      (c.move_word dw wsz).1.position =
        max 0 (min (c.position + dw * wsz) ((c.fileSize : Int) - 1))) ∧
    (c.fileSize = 0 → c.move_word dw wsz = (c, [])) := by
  refine ⟨rfl, rfl, rfl, rfl, ?_, ?_⟩
  · intro h
    unfold Cursor.move_word
    rw [if_neg h]
    exact Cursor.set_position_fst c _
  · intro h
    unfold Cursor.move_word
    rw [if_pos h]

/-- C6 witness: on a 256-byte cursor at position 20, `ctrl+right` is consumed
and word movement lands on position 24. -/
theorem C6_witness :
    (Cursor.handleNavigation ⟨20, 256, 16, 10, true⟩ "ctrl+right").2 = true ∧
    (Cursor.move_word ⟨20, 256, 16, 10, true⟩ 1 4).1.position = 24 := by
  have h := C6_ctrl_word_navigation ⟨20, 256, 16, 10, true⟩ 1 4
  exact ⟨h.2.1, (h.2.2.2.2.1 (by decide)).trans (by decide)⟩

end Texxd

namespace Texxd

/-- C7: for every chunk length up to `bytes_per_line`, the total display-cell
count of the segments returned by the Hex column's and the ASCII column's
`render_line` equals the column's declared width, including for a padded
final partial line. -/
theorem C7_column_width_invariant (bpl : Nat) (data : List Nat)
    (styles : List (Option Style)) (hbpl : 1 ≤ bpl) (hlen : data.length ≤ bpl)
    (hbytes : ∀ b ∈ data, b < 256) :
    cells (HexColumn.renderLine bpl data styles) = HexColumn.width bpl ∧
    cells (AsciiColumn.renderLine bpl data styles) = AsciiColumn.width bpl := by
  constructor
  · unfold HexColumn.renderLine HexColumn.width
    rw [cells_append, cells_append, cells_flatMap, cells_flatMap]
    have hmain : ((List.range data.length).map fun i =>
        cells ((if i = 8 then [((" " : String), some Style.empty)] else [])
          ++ [((hexStr (data.getD i 0) : String), styleAt styles i)]
          ++ (if i < bpl - 1 then [((" " : String), some Style.empty)] else []))).sum
        = ((List.range data.length).map fun i =>
            (if i = 8 then 1 else 0) + (2 + (if i < bpl - 1 then 1 else 0))).sum := by
      congr 1
      apply List.map_congr_left
      intro i hi
      rw [List.mem_range] at hi
      have hb : data.getD i 0 < 256 := by
        have hmem : data.getD i 0 ∈ data := by
          rw [List.getD_eq_getElem _ _ hi]
          exact List.getElem_mem _
        exact hbytes _ hmem
      rw [cells_append, cells_append, cells_singleton]
      rw [show ((hexStr (data.getD i 0) : String), styleAt styles i).1.length
        = (hexStr (data.getD i 0)).length from rfl, hexStr_length _ hb]
      split_ifs <;> simp [cells] <;> rfl
    have hpad : ((List.range' data.length (bpl - data.length)).map fun i =>
        cells ((if i = 8 then [((" " : String), some Style.empty)] else [])
          ++ [(("  " : String), some Style.empty)]
          ++ (if i < bpl - 1 then [((" " : String), some Style.empty)] else []))).sum
        = ((List.range' data.length (bpl - data.length)).map fun i =>
            (if i = 8 then 1 else 0) + (2 + (if i < bpl - 1 then 1 else 0))).sum := by
      congr 1
      apply List.map_congr_left
      intro i hi
      rw [cells_append, cells_append, cells_singleton]
      split_ifs <;> simp [cells] <;> rfl
    rw [hmain, hpad, show cells [((" " : String), some Style.empty)] = 1 from rfl]
    rw [← List.sum_append, ← List.map_append, range_append_range']
    rw [show data.length + (bpl - data.length) = bpl from by omega]
    rw [weight_sum bpl (bpl - 1)]
    split_ifs <;> omega
  · unfold AsciiColumn.renderLine AsciiColumn.width
    rw [cells_append]
    have h1 : cells ((List.range data.length).map fun i =>
        ((byteToAscii (data.getD i 0) : String), styleAt styles i)) = data.length := by
      unfold cells
      rw [List.map_map]
      show ((List.range data.length).map
          fun i => (byteToAscii (data.getD i 0)).length).sum = data.length
      rw [List.map_congr_left (g := fun _ => (1 : Nat))
        (fun i _ => byteToAscii_length (data.getD i 0))]
      rw [sum_map_one, List.length_range]
    have h2 : cells ((List.range' data.length (bpl - data.length)).map
        fun _ => ((" " : String), some Style.empty)) = bpl - data.length := by
      unfold cells
      rw [List.map_map]
      show ((List.range' data.length (bpl - data.length)).map
          fun _ => (" " : String).length).sum = bpl - data.length
      rw [List.map_congr_left (f := fun _ => (" " : String).length)
        (g := fun _ => (1 : Nat)) (fun i _ => rfl)]
      rw [sum_map_one, List.length_range']
    rw [h1, h2]
    omega

/-- C7 witness: a 4-byte chunk on a 16-byte hex line and a 1-byte chunk on a
16-byte ASCII line both fill exactly the declared column widths. -/
theorem C7_witness :
    cells (HexColumn.renderLine 16 [0, 1, 2, 3] []) = HexColumn.width 16 ∧
    cells (AsciiColumn.renderLine 16 [65] []) = AsciiColumn.width 16 :=
  C7_column_width_invariant 16 [0, 1, 2, 3] [] (by decide) (by decide) (by decide)
    |>.imp id (fun _ => (C7_column_width_invariant 16 [65] [] (by decide) (by decide)
      (by decide)).2)

end Texxd

namespace Texxd

/-- C4 counterexample: byte `0x7F` lies outside `[0x20, 0x7E]`, so the claim
says it renders as `"."`; the ASCII column's `render_line` (whose printable
test is `32 <= byte <= 127`) renders it as `chr(0x7F)` instead. -/
theorem C4_counterexample :
    ¬ ((AsciiColumn.renderLine 16 [127] [none]).map Prod.fst
        = "." :: List.replicate 15 " ") := by decide

/-- C4 (amended): in every line rendered by the ASCII column, a byte `b`
renders as `chr(b)` exactly when `b` is in `[0x20, 0x7F]` (not `0x7E`: the
code's test is `32 <= byte <= 127`) and as `"."` otherwise; a short final
line is padded with blank cells up to `bytes_per_line`. -/
theorem C4_ascii_rendering (bpl : Nat) (data : List Nat)
    (styles : List (Option Style)) (hlen : data.length ≤ bpl) :
    (AsciiColumn.renderLine bpl data styles).length = bpl ∧
    (∀ i, i < data.length →
      (AsciiColumn.renderLine bpl data styles).getD i ("", none) =
        ((if 32 ≤ data.getD i 0 ∧ data.getD i 0 ≤ 127
          then String.singleton (Char.ofNat (data.getD i 0)) else "."),
         styleAt styles i)) ∧
    (∀ i, data.length ≤ i → i < bpl →
      (AsciiColumn.renderLine bpl data styles).getD i ("", none)
        = (" ", some Style.empty)) := by
  unfold AsciiColumn.renderLine
  refine ⟨?_, ?_, ?_⟩
  · simp only [List.length_append, List.length_map, List.length_range,
      List.length_range']
    omega
  · intro i hi
    simp only [List.getD_eq_getElem?_getD, List.getElem?_append, List.length_map,
      List.length_range]
    rw [if_pos hi, List.getElem?_map, List.getElem?_range hi]
    simp [byteToAscii]
  · intro i h1 h2
    simp only [List.getD_eq_getElem?_getD, List.getElem?_append, List.length_map,
      List.length_range]
    rw [if_neg (by omega), List.getElem?_map,
      List.getElem?_range' data.length 1 (show i - data.length < bpl - data.length by omega)]
    rfl

/-- C4 witness: the spec's concrete scenario `"ABCDEFGHIJKLMNO\x00"`: byte 15
(value 0) renders as `"."` and byte 0 renders as `"A"`. -/
theorem C4_witness :
    (AsciiColumn.renderLine 16 [65,66,67,68,69,70,71,72,73,74,75,76,77,78,79,0]
        (List.replicate 16 none)).getD 15 ("", none) = (".", none) ∧
    (AsciiColumn.renderLine 16 [65,66,67,68,69,70,71,72,73,74,75,76,77,78,79,0]
        (List.replicate 16 none)).getD 0 ("", none) = ("A", none) := by
  have h := C4_ascii_rendering 16 [65,66,67,68,69,70,71,72,73,74,75,76,77,78,79,0]
    (List.replicate 16 none) (by decide)
  exact ⟨(h.2.1 15 (by decide)).trans (by decide),
         (h.2.1 0 (by decide)).trans (by decide)⟩

/-- C10: `Cursor.highlight` modifies at most the one style slot under the
cursor, and only when the cursor is active and its position lies inside
`[offset, offset + len(span))`; the new style is merged additively onto the
existing one via `_combine_styles`; with an inactive cursor, an empty span,
or a position outside the span, the styles array is unchanged. -/
theorem C10_highlight_frame (c : Cursor) (data : List Nat) (off : Nat)
    (styles : List (Option Style)) (hlen : styles.length = data.length) :
    ((c.isActive = false ∨ data = []) → c.highlight data off styles = styles) ∧
    ((c.position < (off : Int) ∨ (off : Int) + data.length ≤ c.position) →
      c.highlight data off styles = styles) ∧
    (c.isActive = true → (off : Int) ≤ c.position →
      c.position < (off : Int) + data.length →
      c.highlight data off styles =
        styles.set (c.position - (off : Int)).toNat
          (some (Cursor.combineStyles
            (styles.getD (c.position - (off : Int)).toNat none) Cursor.activeStyle)) ∧
      ∀ j, j ≠ (c.position - (off : Int)).toNat →
        (c.highlight data off styles).getD j none = styles.getD j none) := by
  refine ⟨?_, ?_, ?_⟩
  · intro h
    unfold Cursor.highlight
    rcases h with h | h
    · rw [if_pos (Or.inr h)]
    · rw [if_pos (Or.inl h)]
  · intro h
    unfold Cursor.highlight
    dsimp only
    split_ifs with h1 h2
    · rfl
    · exfalso
      rcases h with h | h <;> omega
    · rfl
  · intro hact hlo hhi
    have hset : c.highlight data off styles =
        styles.set (c.position - (off : Int)).toNat
          (some (Cursor.combineStyles
            (styles.getD (c.position - (off : Int)).toNat none) Cursor.activeStyle)) := by
      unfold Cursor.highlight
      dsimp only
      rw [if_neg (by
          intro hcontra
          rcases hcontra with h | h
          · rw [h] at hhi
            simp at hhi
            omega
          · rw [hact] at h
            simp at h),
        if_pos ⟨hlo, hhi⟩]
    refine ⟨hset, ?_⟩
    intro j hj
    rw [hset]
    simp only [List.getD_eq_getElem?_getD]
    rw [List.getElem?_set_ne (by omega)]

end Texxd

namespace Texxd

/-- C10 witness: an active cursor at position 2 over a 3-byte span at offset
1 merges its active style onto the existing bold style in slot 1 (keeping the
bold flag), and an inactive cursor leaves the array untouched. -/
theorem C10_witness :
    Cursor.highlight ⟨2, 10, 16, 10, true⟩ [65, 66, 67] 1
        [none, some ⟨none, none, some true⟩, none]
      = [none, some ⟨some "black", some "bright_white", some true⟩, none] ∧
    Cursor.highlight ⟨2, 10, 16, 10, false⟩ [65, 66, 67] 1
        [none, some ⟨none, none, some true⟩, none]
      = [none, some ⟨none, none, some true⟩, none] := by
  have h := C10_highlight_frame ⟨2, 10, 16, 10, true⟩ [65, 66, 67] 1
    [none, some ⟨none, none, some true⟩, none] (by decide)
  have h2 := C10_highlight_frame ⟨2, 10, 16, 10, false⟩ [65, 66, 67] 1
    [none, some ⟨none, none, some true⟩, none] (by decide)
  exact ⟨((h.2.2 rfl (by decide) (by decide)).1).trans (by decide),
         h2.1 (Or.inl rfl)⟩

end Texxd
